import Mathlib

/-!
Shallow embedding of the event-to-state reconciliation core of the
`theboardroom` repository, together with theorems checking its
natural-language specification.

Embedded source files:
* `src/entities/ParticipantState.ts` — participant records, the visual state
  machine, the participant factory;
* `src/managers/ParticipantManager.ts` — the entity registry (add / remove /
  setSpeaking / arrange / clear and the observer notifications);
* `src/ui/HUDController.ts` (the novelty-history revision) — the metrics
  engine (setNovelty / reset over the rolling novelty history);
* `src/events/BloodbankEventSource.ts` — the turn-completed handling with its
  500 ms `setTimeout` clear-speaker, modelled as a discrete-event timeline.

Conventions of the embedding: TypeScript `Map`s (keyed by participant name,
iterated in insertion order) are association lists / ordered lists of records;
mutating methods become pure functions returning the new state, and every
`notify(event)` call becomes an element of a returned event list (each
subscriber receives exactly that sequence of events, synchronously, in order);
JS numbers are modelled as `ℚ` (all arithmetic in the embedded code is exact on
the inputs that appear); `Math.PI` is threaded through as an explicit rational
parameter `piV` since no claim depends on its value; `Date.now()` timestamps
are threaded as an explicit `now` parameter.
-/

namespace Boardroom

/-- Visual state of a participant (`VisualState` in `ParticipantState.ts`). -/
inductive VisualState where
  | idle
  | speaking
  | listening
  | thinking
deriving DecidableEq, Repr

/-- Non-null turn kinds; the TS `TurnType = 'response' | 'turn' | null` is
modelled as `Option TurnKind`. -/
inductive TurnKind where
  | response
  | turn
deriving DecidableEq, Repr

/-- `ParticipantEntity` from `ParticipantState.ts`. -/
structure ParticipantEntity where
  id : String
  name : String
  role : String
  color : Option String
  joinedAt : Nat
deriving DecidableEq, Repr

/-- `ParticipantStateComponent` from `ParticipantState.ts`. -/
structure ParticipantStateComponent where
  visual : VisualState
  turnType : Option TurnKind
  lastActiveRound : Nat
  isSpeaking : Bool
deriving DecidableEq, Repr

/-- `Position` component from `ParticipantState.ts`. -/
structure Position where
  angle : ℚ
  radius : ℚ
  index : Nat
deriving DecidableEq, Repr

/-- `Participant` from `ParticipantState.ts`. -/
structure Participant where
  entity : ParticipantEntity
  state : ParticipantStateComponent
  position : Position
deriving DecidableEq, Repr

/-- The transition table of `ParticipantStateMachine.isValidTransition`
(`ParticipantState.ts`): the `Record<VisualState, VisualState[]>` literal. -/
def validTargets : VisualState → List VisualState
  | .idle => [.speaking, .listening, .thinking]
  | .speaking => [.idle, .listening]
  | .listening => [.speaking, .idle]
  | .thinking => [.speaking, .idle]

/-- `ParticipantStateMachine.isValidTransition` from `ParticipantState.ts`. -/
def isValidTransition (src tgt : VisualState) : Bool :=
  (validTargets src).contains tgt

/-- `ParticipantStateMachine.transition` from `ParticipantState.ts`: from
state `cur`, attempting to move to `tgt` returns the success flag and the
machine's state afterwards (on rejection it only logs a warning — it does not
throw — and keeps the current state). -/
def smTransitionStep (cur tgt : VisualState) : Bool × VisualState :=
  if isValidTransition cur tgt then (true, tgt) else (false, cur)

/-- The edge table as the specification words it (the nine directed edges of
§4.2); a second definition, written from the spec, to be compared against
`smTransitionStep`, which is written from the source. -/
def specAllowedEdges : List (VisualState × VisualState) :=
  [(.idle, .speaking), (.idle, .listening), (.idle, .thinking),
   (.speaking, .idle), (.speaking, .listening),
   (.listening, .speaking), (.listening, .idle),
   (.thinking, .speaking), (.thinking, .idle)]

end Boardroom

namespace Boardroom

/-! ### Metrics engine (`HUDController`, novelty-history revision)

Only the state fields of `HUDController` are modelled; the DOM lookups, the
bar animations (`AnimationManager`) and the wall-clock timer are display-side
effects with no influence on the stored metrics. -/

/-- The state fields of `HUDController` relevant to the metrics engine. -/
structure HUDController where
  meetingStartTime : Nat
  currentRound : Nat
  maxRounds : Nat
  consensusLevel : ℚ
  noveltyLevel : ℚ
  noveltyHistory : List ℚ
deriving DecidableEq, Repr

/-- Field initializers of `HUDController` (its constructor only starts the
display timer and animation loop). -/
def initialHUD : HUDController :=
  { meetingStartTime := 0
    currentRound := 0
    maxRounds := 0
    consensusLevel := 0
    noveltyLevel := 50
    noveltyHistory := [] }

/-- `Math.max(0, Math.min(100, x))` as used throughout `HUDController`. -/
def clampQ (x : ℚ) : ℚ := max 0 (min 100 x)

/-- `HUDController.setNovelty`: clamp, push onto the history, evict the oldest
when the history exceeds 10 entries (`shift()`), then recompute
`consensusLevel` as the clamped inverse of the history mean. The two
`animationManager.start` calls only animate the DOM bars. -/
def setNovelty (h : HUDController) (level : ℚ) : HUDController :=
  let nl := clampQ level
  let hist1 := h.noveltyHistory ++ [nl]
  let hist2 := if hist1.length > 10 then hist1.drop 1 else hist1
  let avgNovelty := hist2.sum / (hist2.length : ℚ)
  { h with
    noveltyLevel := nl
    noveltyHistory := hist2
    consensusLevel := clampQ (100 - avgNovelty) }

/-- `HUDController.reset`: zero the fields, then (after the display-only
round/consensus-bar updates) call `setNovelty(50)`; the trailing DOM and
participant-pip updates do not touch the metrics fields. -/
def reset (h : HUDController) : HUDController :=
  let h1 := { h with
    meetingStartTime := 0
    currentRound := 0
    maxRounds := 0
    consensusLevel := 0
    noveltyLevel := 50
    noveltyHistory := ([] : List ℚ) }
  setNovelty h1 50

/-- A sequence of `setNovelty` calls, first argument first. -/
def recordAll (h : HUDController) (vs : List ℚ) : HUDController :=
  vs.foldl setNovelty h

/-- The last-ten-elements suffix of a list (what the push-then-shift FIFO of
`setNovelty` retains). -/
def lastTen (l : List ℚ) : List ℚ := l.drop (l.length - 10)

end Boardroom

namespace Boardroom

/-! ### Entity registry (`ParticipantManager.ts` and `ParticipantFactory`) -/

/-- `ParticipantChangeType` from `ParticipantManager.ts`. -/
inductive ParticipantChangeType where
  | added
  | removed
  | state_changed
  | position_changed
  | cleared
deriving DecidableEq, Repr

/-- `ParticipantChangeEvent` from `ParticipantManager.ts`; exactly the record
passed to each subscriber by `notify`. -/
structure ParticipantChangeEvent where
  type : ParticipantChangeType
  participant : Option Participant
  participants : Option (List Participant)
deriving DecidableEq, Repr

/-- `ParticipantFactory.colors` from `ParticipantState.ts`. -/
def factoryColors : List String :=
  ["#e74c3c", "#3498db", "#2ecc71", "#f39c12",
   "#9b59b6", "#e91e63", "#00bcd4", "#ffeb3b"]

/-- The `config` argument of `addParticipant` / `createParticipant`. -/
structure AddConfig where
  name : String
  role : String
  color : Option String
deriving DecidableEq, Repr

/-- `ParticipantFactory.createParticipant` from `ParticipantState.ts`;
`count` is the static `participantCount` before its post-increment, `now` is
`Date.now()`. -/
def createParticipant (count : Nat) (now : Nat) (cfg : AddConfig) : Participant :=
  { entity :=
      { id := cfg.name
        name := cfg.name
        role := cfg.role
        color := some (cfg.color.getD (factoryColors.getD (count % factoryColors.length) ""))
        joinedAt := now }
    state :=
      { visual := .idle
        turnType := none
        lastActiveRound := 0
        isSpeaking := false }
    position :=
      { angle := 0
        radius := 220
        index := count } }

/-- The state of a `ParticipantManager` instance: the insertion-ordered
`participants` map (as its value list; keys equal `entity.id`), the parallel
`stateMachines` map (each machine reduced to its `currentState`), the
`tableRadius` field, and the static `ParticipantFactory.participantCount`
(reset by `clearParticipants`). -/
structure ParticipantManager where
  participants : List Participant
  stateMachines : List (String × VisualState)
  tableRadius : ℚ
  factoryCount : Nat
deriving DecidableEq, Repr

/-- A fresh `ParticipantManager` (field initializers; factory counter 0). -/
def emptyManager : ParticipantManager :=
  { participants := []
    stateMachines := []
    tableRadius := 220
    factoryCount := 0 }

/-- `stateMachines.get(name)?.getState()` — the state of the named machine,
when present. -/
def smLookup (sms : List (String × VisualState)) (name : String) : Option VisualState :=
  (sms.find? (fun kv => kv.1 == name)).map (fun kv => kv.2)

/-- `stateMachines.get(name)?.transition(tgt)` — the machine map after asking
the named machine (if present) to transition; keys are unique, so updating
every matching entry coincides with updating the one entry. -/
def smTransition (sms : List (String × VisualState)) (name : String)
    (tgt : VisualState) : List (String × VisualState) :=
  sms.map (fun kv => if kv.1 == name then (kv.1, (smTransitionStep kv.2 tgt).2) else kv)

/-- One iteration of the leading clear-loop of `ParticipantManager.setSpeaking`
on participant `p`: drop `isSpeaking`/`turnType`, and if the participant was
speaking, transition its machine toward `listening` and refresh `visual` from
the machine (`?? 'idle'` when the machine is absent). -/
def clearStep (sms : List (String × VisualState)) (p : Participant) :
    Participant × List (String × VisualState) :=
  let p1 := { p with state := { p.state with isSpeaking := false, turnType := none } }
  if p.state.isSpeaking then
    let sms1 := smTransition sms p.entity.id .listening
    ({ p1 with state := { p1.state with visual := (smLookup sms1 p.entity.id).getD .idle } },
     sms1)
  else
    (p1, sms)

/-- The leading clear-loop of `setSpeaking`, over all participants in
insertion order, threading the state-machine map. -/
def clearLoop (sms : List (String × VisualState)) :
    List Participant → List Participant × List (String × VisualState)
  | [] => ([], sms)
  | p :: rest =>
    let st := clearStep sms p
    let r := clearLoop st.2 rest
    (st.1 :: r.1, r.2)

/-- One iteration of the `name === null` loop of `setSpeaking`: participants
not visually `idle` are transitioned to `idle` via their machine. -/
def idleStep (sms : List (String × VisualState)) (p : Participant) :
    Participant × List (String × VisualState) :=
  if p.state.visual ≠ .idle then
    let sms1 := smTransition sms p.entity.id .idle
    ({ p with state := { p.state with visual := (smLookup sms1 p.entity.id).getD .idle } },
     sms1)
  else
    (p, sms)

/-- The `name === null` loop of `setSpeaking` over all participants. -/
def idleLoop (sms : List (String × VisualState)) :
    List Participant → List Participant × List (String × VisualState)
  | [] => ([], sms)
  | p :: rest =>
    let st := idleStep sms p
    let r := idleLoop st.2 rest
    (st.1 :: r.1, r.2)

/-- Update the first list element satisfying `q` (JS `Map.get` hands out the
single object stored under a key; mutating it rewrites that one entry). -/
def updateFirst (q : α → Bool) (f : α → α) : List α → List α
  | [] => []
  | a :: rest => if q a then f a :: rest else a :: updateFirst q f rest

/-- `ParticipantManager.setSpeaking(name, turnType, roundNum)`: the new
manager state and the sequence of notifications delivered to every
subscriber. -/
def setSpeaking (m : ParticipantManager) (name : Option String)
    (turnType : Option TurnKind) (roundNum : Option Nat) :
    ParticipantManager × List ParticipantChangeEvent :=
  let cl := clearLoop m.stateMachines m.participants
  let ps1 := cl.1
  let sms1 := cl.2
  match name with
  | some n =>
    match ps1.find? (fun p => p.entity.id == n) with
    | some _ =>
      let sms2 := smTransition sms1 n .speaking
      let newVisual := (smLookup sms2 n).getD .speaking
      let ps2 := updateFirst (fun p => p.entity.id == n)
        (fun p => { p with state :=
          { p.state with
            isSpeaking := true
            turnType := turnType
            lastActiveRound := roundNum.getD p.state.lastActiveRound
            visual := newVisual } }) ps1
      ({ m with participants := ps2, stateMachines := sms2 },
       [{ type := .state_changed
          participant := ps2.find? (fun p => p.entity.id == n)
          participants := none }])
    | none =>
      ({ m with participants := ps1, stateMachines := sms1 }, [])
  | none =>
    let il := idleLoop sms1 ps1
    ({ m with participants := il.1, stateMachines := il.2 },
     [{ type := .state_changed
        participant := none
        participants := some il.1 }])

/-- The body of the `for` loop of `ParticipantManager.arrangeParticipants`:
`angle = angleStep * index - Math.PI / 2` with `angleStep = (Math.PI * 2) /
count`, `radius = tableRadius`, `index` running from `i`. -/
def arrangeList (piV radius : ℚ) (count : Nat) :
    Nat → List Participant → List Participant
  | _, [] => []
  | i, p :: rest =>
    { p with position :=
        { angle := piV * 2 / (count : ℚ) * (i : ℚ) - piV / 2
          radius := radius
          index := i } } :: arrangeList piV radius count (i + 1) rest

/-- `ParticipantManager.arrangeParticipants`: early return (no notification)
on an empty registry, otherwise reposition every participant and emit one
batch `position_changed` notification. -/
def arrangeParticipants (piV : ℚ) (m : ParticipantManager) :
    ParticipantManager × List ParticipantChangeEvent :=
  let count := m.participants.length
  if count = 0 then (m, [])
  else
    let ps := arrangeList piV m.tableRadius count 0 m.participants
    ({ m with participants := ps },
     [{ type := .position_changed, participant := none, participants := some ps }])

/-- `ParticipantManager.addParticipant(config)`: returns the (existing or
created) participant, the new manager state, and the notifications. The
`added` notification carries the very object that `arrangeParticipants` has
just repositioned (JS reference semantics), i.e. the arranged copy of the new
participant. -/
def addParticipant (piV : ℚ) (now : Nat) (m : ParticipantManager)
    (cfg : AddConfig) :
    Participant × ParticipantManager × List ParticipantChangeEvent :=
  match m.participants.find? (fun p => p.entity.id == cfg.name) with
  | some existing => (existing, m, [])
  | none =>
    let p := createParticipant m.factoryCount now cfg
    let m1 := { m with
      participants := m.participants ++ [p]
      stateMachines := m.stateMachines ++ [(cfg.name, VisualState.idle)]
      factoryCount := m.factoryCount + 1 }
    let ar := arrangeParticipants piV m1
    let pRef := ((ar.1.participants.find? (fun q => q.entity.id == cfg.name)).getD p)
    (pRef, ar.1,
     ar.2 ++ [{ type := .added, participant := some pRef, participants := none }])

/-- `ParticipantManager.removeParticipant(name)`: `false` and no effect when
absent; otherwise delete the entry (and its machine), rearrange, and emit the
`position_changed` notification (from the rearrange) followed by `removed`. -/
def removeParticipant (piV : ℚ) (m : ParticipantManager) (name : String) :
    Bool × ParticipantManager × List ParticipantChangeEvent :=
  match m.participants.find? (fun p => p.entity.id == name) with
  | none => (false, m, [])
  | some p =>
    let m1 := { m with
      participants := m.participants.eraseP (fun q => q.entity.id == name)
      stateMachines := m.stateMachines.eraseP (fun kv => kv.1 == name) }
    let ar := arrangeParticipants piV m1
    (true, ar.1,
     ar.2 ++ [{ type := .removed, participant := some p, participants := none }])

/-- `ParticipantManager.getParticipant(name)`. -/
def getParticipant (m : ParticipantManager) (name : String) : Option Participant :=
  m.participants.find? (fun p => p.entity.id == name)

/-- `ParticipantManager.getSpeakingParticipant()`: the first participant with
`isSpeaking` set, if any. -/
def getSpeakingParticipant (m : ParticipantManager) : Option Participant :=
  m.participants.find? (fun p => p.state.isSpeaking)

/-- `ParticipantManager.clearParticipants()`: empty both maps, reset the
factory counter, emit one `cleared` notification. -/
def clearParticipants (m : ParticipantManager) :
    ParticipantManager × List ParticipantChangeEvent :=
  ({ m with participants := [], stateMachines := [], factoryCount := 0 },
   [{ type := .cleared, participant := none, participants := none }])

/-- Number of participants whose `isSpeaking` flag is set. -/
def countSpeaking (m : ParticipantManager) : Nat :=
  (m.participants.filter (fun p => p.state.isSpeaking)).length

/-- One `setSpeaking` call: the `(id | null, turnKind, round?)` argument
triple. -/
structure SpeakCall where
  name : Option String
  turnType : Option TurnKind
  roundNum : Option Nat
deriving DecidableEq, Repr

/-- Apply a sequence of `setSpeaking` calls, discarding notifications. -/
def applySpeakCalls (m : ParticipantManager) (calls : List SpeakCall) :
    ParticipantManager :=
  calls.foldl (fun m c => (setSpeaking m c.name c.turnType c.roundNum).1) m

/-- A registry mutation: one `addParticipant` or `removeParticipant` call. -/
inductive RegistryOp where
  | add (cfg : AddConfig) (now : Nat)
  | remove (name : String)
deriving DecidableEq, Repr

/-- Apply one registry mutation, discarding notifications. -/
def applyRegistryOp (piV : ℚ) (m : ParticipantManager) : RegistryOp → ParticipantManager
  | .add cfg now => (addParticipant piV now m cfg).2.1
  | .remove name => (removeParticipant piV m name).2.1

/-- Apply a sequence of adds and removes, discarding notifications. -/
def applyRegistryOps (piV : ℚ) (m : ParticipantManager) (ops : List RegistryOp) :
    ParticipantManager :=
  ops.foldl (applyRegistryOp piV) m

/-- Seat assignment is the pure function of insertion order and count claimed
by the specification: the participant at insertion position `i` of `N` has
`seatIndex = i` (so the indices are exactly `0, ..., N-1`, no gaps, no
duplicates) and `angle = 2·π·i/N − π/2` (with `piV` standing for
`Math.PI`). -/
def SeatsArranged (piV : ℚ) (m : ParticipantManager) : Prop :=
  m.participants.map (fun p => p.position.index)
      = List.range m.participants.length
  ∧ m.participants.map (fun p => p.position.angle)
      = (List.range m.participants.length).map
          (fun i => 2 * piV * (i : ℚ) / (m.participants.length : ℚ) - piV / 2)

end Boardroom

namespace Boardroom

/-! ### Turn-completed handling of `BloodbankEventSource.processEvent`

The `theboard.meeting.participant.turn.completed` branch calls
`participantManager.setSpeaking(agent_name, turn_type || 'turn', round_num)`
and then `setTimeout(() => participantManager.setSpeaking(null, null), 500)`.
The timeout handle is never stored and `clearTimeout` is never called, so
every scheduled clear fires 500 ms after its own event.  The single-threaded
JS event loop is modelled as a discrete-event timeline: turn-completed events
arrive at given millisecond times (in arrival order, as the transport
delivers them), and a pending-timer list records the fire time of every
scheduled clear. -/

/-- Payload of one `participant.turn.completed` event
(`agent_name`, `turn_type` — possibly absent, defaulted to `'turn'` by the
handler — and `round_num`). -/
structure TurnCompleted where
  agentName : String
  turnType : Option TurnKind
  roundNum : Nat
deriving DecidableEq, Repr

/-- Manager plus the fire times of the pending (never-cancelled) `setTimeout`
clears. -/
structure SimState where
  manager : ParticipantManager
  timers : List Nat
deriving DecidableEq, Repr

/-- What a fired timer callback executes:
`participantManager.setSpeaking(null, null)` (the HUD call touches only the
DOM). -/
def fireClear (m : ParticipantManager) : ParticipantManager :=
  (setSpeaking m none none none).1

/-- The turn-completed branch of `processEvent` at time `t`: set the speaker
(`turn_type || 'turn'`, `round_num`) and schedule an uncancellable clear at
`t + 500`. -/
def handleTurnCompleted (t : Nat) (e : TurnCompleted) (s : SimState) : SimState :=
  { manager := (setSpeaking s.manager (some e.agentName)
      (some (e.turnType.getD .turn)) (some e.roundNum)).1
    timers := s.timers ++ [t + 500] }

/-- Fire every pending timer strictly before time `t` (the event loop runs
due timeouts before a message arriving at `t`). -/
def fireBefore (t : Nat) (s : SimState) : SimState :=
  { manager := (s.timers.filter (fun x => x < t)).foldl (fun m _ => fireClear m) s.manager
    timers := s.timers.filter (fun x => ¬ x < t) }

/-- Fire every pending timer due at or before time `T`. -/
def fireUpTo (T : Nat) (s : SimState) : SimState :=
  { manager := (s.timers.filter (fun x => x ≤ T)).foldl (fun m _ => fireClear m) s.manager
    timers := s.timers.filter (fun x => ¬ x ≤ T) }

/-- Run the timeline up to and including time `T`: events are given in
arrival order with their arrival times; due timers fire between events and
after the last event. Returns the state observable just after time `T`. -/
def runSim (T : Nat) : List (Nat × TurnCompleted) → SimState → SimState
  | [], s => fireUpTo T s
  | (t, e) :: rest, s =>
    if t ≤ T then runSim T rest (handleTurnCompleted t e (fireBefore t s))
    else fireUpTo T s

/-! ### Concrete fixtures used by witnesses and counterexamples -/

/-- A concrete rational stand-in for `Math.PI`; no claim depends on its
value. -/
def piQ : ℚ := 314159 / 100000

/-- Adding participant "A" to a fresh manager. -/
def addA : Participant × ParticipantManager × List ParticipantChangeEvent :=
  addParticipant piQ 0 emptyManager { name := "A", role := "Agent", color := none }

/-- The participant "A" as returned by that add. -/
def pA : Participant := addA.1

/-- The single-participant manager holding "A". -/
def mA : ParticipantManager := addA.2.1

/-- The manager holding "A" then "B". -/
def mAB : ParticipantManager :=
  (addParticipant piQ 1 mA { name := "B", role := "Agent", color := none }).2.1

/-- `mAB` after `setSpeaking("A", "turn", 1)`: "A" is the current speaker. -/
def mSpeakA : ParticipantManager :=
  (setSpeaking mAB (some "A") (some .turn) (some 1)).1

/-- Two turn-completed events: "A" at t = 0 ms, "B" at t = 300 ms — the
second arrives before the 500 ms clear scheduled by the first has elapsed. -/
def simEvents : List (Nat × TurnCompleted) :=
  [(0, { agentName := "A", turnType := some .turn, roundNum := 1 }),
   (300, { agentName := "B", turnType := some .turn, roundNum := 1 })]

/-- The timeline's start state: both participants present, no pending
timer. -/
def simStart : SimState := { manager := mAB, timers := [] }

/-- The fifteen literal novelty samples `0, 5, ..., 70` of the
window-eviction test case. -/
def literalSamples : List ℚ :=
  [0, 5, 10, 15, 20, 25, 30, 35, 40, 45, 50, 55, 60, 65, 70]

end Boardroom

namespace Boardroom

/-! ## Theorems -/

/-- C7: for every pair of visual states, `transition` succeeds and yields the
target exactly when the edge is one of the nine edges of the specification
table, and otherwise rejects (returning `false`, no exception) leaving the
current state unchanged; in particular `speaking → thinking` is rejected and
`idle → speaking` succeeds. -/
theorem transition_matches_spec_table :
    (∀ c t : VisualState,
      smTransitionStep c t =
        if (c, t) ∈ specAllowedEdges then (true, t) else (false, c))
    ∧ smTransitionStep .speaking .thinking = (false, .speaking)
    ∧ smTransitionStep .idle .speaking = (true, .speaking) := by
  refine ⟨fun c t => ?_, by decide, by decide⟩
  cases c <;> cases t <;> decide

/-- Full evaluation of `reset`: the trailing `setNovelty(50)` call re-records
a sample, so the history ends as `[50]` and the consensus as 50. -/
lemma reset_eval (h : HUDController) :
    reset h =
      { meetingStartTime := 0
        currentRound := 0
        maxRounds := 0
        consensusLevel := 50
        noveltyLevel := 50
        noveltyHistory := [50] } := by
  simp only [reset, setNovelty, clampQ]
  norm_num

/-- C4 counterexample: at the concrete input `initialHUD`, it is false that
after `reset()` the stored consensus is 0 and the novelty history is empty
(reset ends by re-recording a novelty sample of 50). -/
theorem reset_defaults_counterexample :
    ¬ ((reset initialHUD).noveltyLevel = 50
       ∧ (reset initialHUD).consensusLevel = 0
       ∧ (reset initialHUD).noveltyHistory = ([] : List ℚ)) := by
  rw [reset_eval]
  intro hc
  exact absurd hc.2.1 (by norm_num)

/-- C4 amended: after `reset()` the stored novelty equals 50, but — because
`reset` finishes by recording the neutral sample via `setNovelty(50)` — the
novelty history equals `[50]` and the stored consensus equals 50, not 0. -/
theorem reset_defaults_amended (h : HUDController) :
    (reset h).noveltyLevel = 50
    ∧ (reset h).consensusLevel = 50
    ∧ (reset h).noveltyHistory = [50] := by
  rw [reset_eval]
  exact ⟨rfl, rfl, rfl⟩

/-- C8: adding a participant whose id is already present returns the existing
participant and changes nothing — the manager state is untouched and no
notification (in particular no second `added`) is emitted. -/
theorem addParticipant_idempotent (piV : ℚ) (now : Nat) (m : ParticipantManager)
    (cfg : AddConfig) (q : Participant)
    (h : m.participants.find? (fun p => p.entity.id == cfg.name) = some q) :
    addParticipant piV now m cfg = (q, m, []) := by
  simp [addParticipant, h]

/-- C8 witness: re-adding "A" to the one-participant manager `mA` returns the
stored participant `pA`, the unchanged manager, and no notifications. -/
theorem addParticipant_idempotent_witness :
    addParticipant piQ 7 mA { name := "A", role := "Boss", color := none } = (pA, mA, []) :=
  addParticipant_idempotent piQ 7 mA _ pA (by rfl)

/-- C10: every `setSpeaking(null, ...)` call emits exactly one batch
`state_changed` notification whose `participants` field is the full registry
contents after the call — also on an empty registry, where the batch carries
the empty list. -/
theorem setSpeaking_null_emits_one_batch (m : ParticipantManager)
    (tt : Option TurnKind) (r : Option Nat) :
    (setSpeaking m none tt r).2 =
      [{ type := .state_changed
         participant := none
         participants := some (setSpeaking m none tt r).1.participants }] := by
  simp [setSpeaking]

/-- C9 counterexample: at the concrete input (fresh add of "A" to an empty
manager) the two notifications arrive as `position_changed` then `added`, not
`added` then `position_changed` as the claim states. -/
theorem addParticipant_order_counterexample :
    ((addParticipant piQ 0 emptyManager
        { name := "A", role := "Agent", color := none }).2.2).map
          (fun e => e.type)
      = [.position_changed, .added]
    ∧ ((addParticipant piQ 0 emptyManager
        { name := "A", role := "Agent", color := none }).2.2).map
          (fun e => e.type)
      ≠ [.added, .position_changed] := by
  decide

/-- C2 counterexample: at the concrete input `mSpeakA` (where "A" is
speaking and "B" is absent), calling `setSpeaking("B", ...)` is not a no-op —
participant "A"'s `isSpeaking` flips from `true` to `false`. -/
theorem setSpeaking_absent_counterexample :
    getParticipant mSpeakA "Z" = none
    ∧ (getParticipant mSpeakA "A").map (fun p => p.state.isSpeaking) = some true
    ∧ (getParticipant (setSpeaking mSpeakA (some "Z") (some .turn) none).1 "A").map
        (fun p => p.state.isSpeaking) = some false := by
  decide

/-- C3: the 500 ms clear scheduled by the turn-completed event at t = 0 is
never cancelled; it fires at t = 500 and clears speaker "B", who was set by
the later event at t = 300 and whose own clear is only due at t = 800 (still
pending). Just before (t = 499) "B" is still the speaker. -/
theorem stale_timer_clears_new_speaker :
    (getSpeakingParticipant (runSim 499 simEvents simStart).manager).map
        (fun p => p.entity.id) = some "B"
    ∧ getSpeakingParticipant (runSim 500 simEvents simStart).manager = none
    ∧ (runSim 500 simEvents simStart).timers = [800] := by
  decide

end Boardroom

namespace Boardroom

/-! ### Lemmas about the clear-loop of `setSpeaking` -/

/-- The clear-loop step always clears `isSpeaking`. -/
lemma clearStep_isSpeaking (sms : List (String × VisualState)) (p : Participant) :
    (clearStep sms p).1.state.isSpeaking = false := by
  simp only [clearStep]
  split <;> rfl

/-- The clear-loop step always nulls `turnType`. -/
lemma clearStep_turnType (sms : List (String × VisualState)) (p : Participant) :
    (clearStep sms p).1.state.turnType = none := by
  simp only [clearStep]
  split <;> rfl

/-- The clear-loop step touches neither the entity, the position, nor
`lastActiveRound`. -/
lemma clearStep_preserve (sms : List (String × VisualState)) (p : Participant) :
    (clearStep sms p).1.entity = p.entity
    ∧ (clearStep sms p).1.position = p.position
    ∧ (clearStep sms p).1.state.lastActiveRound = p.state.lastActiveRound := by
  simp only [clearStep]
  split <;> exact ⟨rfl, rfl, rfl⟩

/-- The clear-loop step keeps the visual state of a non-speaking
participant. -/
lemma clearStep_visual (sms : List (String × VisualState)) (p : Participant)
    (h : p.state.isSpeaking = false) :
    (clearStep sms p).1.state.visual = p.state.visual := by
  simp only [clearStep, h]
  rfl

/-- After the clear-loop, no participant is speaking and every `turnType` is
null. -/
lemma clearLoop_mem (sms : List (String × VisualState)) (ps : List Participant) :
    ∀ p ∈ (clearLoop sms ps).1, p.state.isSpeaking = false ∧ p.state.turnType = none := by
  induction ps generalizing sms with
  | nil => simp [clearLoop]
  | cons a rest ih =>
    intro p hp
    simp only [clearLoop, List.mem_cons] at hp
    rcases hp with h | h
    · subst h
      exact ⟨clearStep_isSpeaking _ _, clearStep_turnType _ _⟩
    · exact ih _ p h

/-- The clear-loop preserves entities, positions and `lastActiveRound`
pointwise. -/
lemma clearLoop_preserve (sms : List (String × VisualState)) (ps : List Participant) :
    (clearLoop sms ps).1.map (fun p => (p.entity, p.position, p.state.lastActiveRound))
      = ps.map (fun p => (p.entity, p.position, p.state.lastActiveRound)) := by
  induction ps generalizing sms with
  | nil => simp [clearLoop]
  | cons a rest ih =>
    simp only [clearLoop, List.map_cons]
    have h := clearStep_preserve sms a
    rw [h.1, h.2.1, h.2.2, ih]

/-- The clear-loop keeps the visual state of every participant that was not
speaking. -/
lemma clearLoop_visual (sms : List (String × VisualState)) (ps : List Participant) :
    List.Forall₂ (fun pre q => pre.state.isSpeaking = false → q.state.visual = pre.state.visual)
      ps (clearLoop sms ps).1 := by
  induction ps generalizing sms with
  | nil => simp [clearLoop]
  | cons a rest ih =>
    simp only [clearLoop]
    exact List.Forall₂.cons (fun h => clearStep_visual sms a h) (ih _)

/-! ### Lemmas about the idle-loop and `updateFirst` -/

/-- The idle-loop step never changes `isSpeaking`. -/
lemma idleStep_isSpeaking (sms : List (String × VisualState)) (p : Participant) :
    (idleStep sms p).1.state.isSpeaking = p.state.isSpeaking := by
  simp only [idleStep]
  split <;> rfl

/-- If nobody was speaking, nobody speaks after the idle-loop. -/
lemma idleLoop_not_speaking (sms : List (String × VisualState)) (ps : List Participant)
    (h : ∀ p ∈ ps, p.state.isSpeaking = false) :
    ∀ q ∈ (idleLoop sms ps).1, q.state.isSpeaking = false := by
  induction ps generalizing sms with
  | nil => simp [idleLoop]
  | cons a rest ih =>
    intro q hq
    simp only [idleLoop, List.mem_cons] at hq
    rcases hq with hq | hq
    · subst hq
      rw [idleStep_isSpeaking]
      exact h a (by simp)
    · exact ih _ (fun p hp => h p (by simp [hp])) q hq

/-- A list of non-speaking participants filters to the empty list. -/
lemma filter_speaking_nil (l : List Participant)
    (h : ∀ p ∈ l, p.state.isSpeaking = false) :
    l.filter (fun p => p.state.isSpeaking) = [] := by
  rw [List.filter_eq_nil_iff]
  intro p hp
  simp [h p hp]

/-- Updating the first matching element of an all-non-speaking list yields at
most one speaking participant. -/
lemma updateFirst_filter_le_one (q : Participant → Bool) (f : Participant → Participant)
    (l : List Participant) (h : ∀ p ∈ l, p.state.isSpeaking = false) :
    ((updateFirst q f l).filter (fun p => p.state.isSpeaking)).length ≤ 1 := by
  induction l with
  | nil => simp [updateFirst]
  | cons a rest ih =>
    simp only [updateFirst]
    split
    · have hrest : rest.filter (fun p => p.state.isSpeaking) = [] :=
        filter_speaking_nil rest (fun p hp => h p (by simp [hp]))
      rw [List.filter_cons, hrest]
      split <;> simp
    · have ha : a.state.isSpeaking = false := h a (by simp)
      rw [List.filter_cons]
      simp only [ha]
      simpa using ih (fun p hp => h p (by simp [hp]))

/-- After any single `setSpeaking` call, at most one participant is
speaking. -/
lemma setSpeaking_count_le_one (m : ParticipantManager) (name : Option String)
    (tt : Option TurnKind) (r : Option Nat) :
    countSpeaking (setSpeaking m name tt r).1 ≤ 1 := by
  have hclear := clearLoop_mem m.stateMachines m.participants
  cases name with
  | none =>
    simp only [setSpeaking, countSpeaking]
    rw [filter_speaking_nil _ (idleLoop_not_speaking _ _ (fun p hp => (hclear p hp).1))]
    simp
  | some n =>
    simp only [setSpeaking, countSpeaking]
    split
    · exact updateFirst_filter_le_one _ _ _ (fun p hp => (hclear p hp).1)
    · rw [filter_speaking_nil _ (fun p hp => (hclear p hp).1)]
      simp

/-- C1: for any sequence of `setSpeaking` calls on any manager state,
immediately after each call completes at most one participant in the registry
has `isSpeaking = true`. -/
theorem single_speaker_invariant (m0 : ParticipantManager) (calls : List SpeakCall)
    (c : SpeakCall) :
    countSpeaking (setSpeaking (applySpeakCalls m0 calls) c.name c.turnType c.roundNum).1 ≤ 1 :=
  setSpeaking_count_le_one _ _ _ _

end Boardroom

namespace Boardroom

/-! ### Lemmas about `arrangeList` and absent-id `setSpeaking` -/

/-- The clear-loop preserves the entity components pointwise. -/
lemma clearLoop_map_entity (sms : List (String × VisualState)) (ps : List Participant) :
    (clearLoop sms ps).1.map (fun p => p.entity) = ps.map (fun p => p.entity) := by
  induction ps generalizing sms with
  | nil => simp [clearLoop]
  | cons a rest ih =>
    simp only [clearLoop, List.map_cons]
    rw [(clearStep_preserve sms a).1, ih]

/-- An id absent from a list stays absent from any list with the same entity
components. -/
lemma find?_id_none_of_map_entity (l₁ l₂ : List Participant) (n : String)
    (hmap : l₁.map (fun p => p.entity) = l₂.map (fun p => p.entity))
    (h : l₂.find? (fun p => p.entity.id == n) = none) :
    l₁.find? (fun p => p.entity.id == n) = none := by
  rw [List.find?_eq_none] at h ⊢
  intro x hx
  have hxent : x.entity ∈ l₂.map (fun p => p.entity) := by
    rw [← hmap]
    exact List.mem_map_of_mem _ hx
  rcases List.mem_map.mp hxent with ⟨y, hy, hye⟩
  have := h y hy
  simpa [← hye] using this

/-- C2 amended: calling `setSpeaking` with a non-null id absent from the
registry emits no notification, but it is not a no-op: the leading clear-loop
still runs, so afterwards no participant is speaking and every `turnType` is
null (a previously speaking participant has been transitioned toward
`listening`), while entities, positions, `lastActiveRound`, and the visual
state of every participant that was not speaking are unchanged. -/
theorem setSpeaking_absent_amended (m : ParticipantManager) (n : String)
    (tt : Option TurnKind) (r : Option Nat)
    (h : m.participants.find? (fun p => p.entity.id == n) = none) :
    (setSpeaking m (some n) tt r).2 = []
    ∧ (∀ p ∈ (setSpeaking m (some n) tt r).1.participants,
        p.state.isSpeaking = false ∧ p.state.turnType = none)
    ∧ (setSpeaking m (some n) tt r).1.participants.map
        (fun p => (p.entity, p.position, p.state.lastActiveRound))
      = m.participants.map (fun p => (p.entity, p.position, p.state.lastActiveRound))
    ∧ List.Forall₂
        (fun pre q => pre.state.isSpeaking = false → q.state.visual = pre.state.visual)
        m.participants (setSpeaking m (some n) tt r).1.participants := by
  have hnone :
      (clearLoop m.stateMachines m.participants).1.find? (fun p => p.entity.id == n) = none :=
    find?_id_none_of_map_entity _ _ _ (clearLoop_map_entity _ _) h
  simp only [setSpeaking, hnone]
  exact ⟨by simp, clearLoop_mem _ _, clearLoop_preserve _ _, clearLoop_visual _ _⟩

/-- C2 witness: the amended statement at the concrete input `mSpeakA` (where
"A" is speaking) and absent id "Z". -/
theorem setSpeaking_absent_amended_witness :
    (setSpeaking mSpeakA (some "Z") (some .turn) none).2 = []
    ∧ (∀ p ∈ (setSpeaking mSpeakA (some "Z") (some .turn) none).1.participants,
        p.state.isSpeaking = false ∧ p.state.turnType = none)
    ∧ (setSpeaking mSpeakA (some "Z") (some .turn) none).1.participants.map
        (fun p => (p.entity, p.position, p.state.lastActiveRound))
      = mSpeakA.participants.map (fun p => (p.entity, p.position, p.state.lastActiveRound))
    ∧ List.Forall₂
        (fun pre q => pre.state.isSpeaking = false → q.state.visual = pre.state.visual)
        mSpeakA.participants (setSpeaking mSpeakA (some "Z") (some .turn) none).1.participants :=
  setSpeaking_absent_amended mSpeakA "Z" (some .turn) none (by rfl)

/-- `arrangeList` preserves the entity components pointwise. -/
lemma arrangeList_map_entity (piV rad : ℚ) (c : Nat) :
    ∀ (i : Nat) (l : List Participant),
      (arrangeList piV rad c i l).map (fun p => p.entity) = l.map (fun p => p.entity) := by
  intro i l
  induction l generalizing i with
  | nil => rfl
  | cons a rest ih => simp [arrangeList, ih]

/-- `arrangeList` preserves the state components pointwise. -/
lemma arrangeList_map_state (piV rad : ℚ) (c : Nat) :
    ∀ (i : Nat) (l : List Participant),
      (arrangeList piV rad c i l).map (fun p => p.state) = l.map (fun p => p.state) := by
  intro i l
  induction l generalizing i with
  | nil => rfl
  | cons a rest ih => simp [arrangeList, ih]

/-- `arrangeList` distributes over append, shifting the running index. -/
lemma arrangeList_append (piV rad : ℚ) (c : Nat) :
    ∀ (i : Nat) (l₁ l₂ : List Participant),
      arrangeList piV rad c i (l₁ ++ l₂)
        = arrangeList piV rad c i l₁ ++ arrangeList piV rad c (i + l₁.length) l₂ := by
  intro i l₁ l₂
  induction l₁ generalizing i with
  | nil => simp [arrangeList]
  | cons a rest ih =>
    have hidx : i + 1 + rest.length = i + (rest.length + 1) := by omega
    simp only [List.cons_append, arrangeList, List.append_eq, List.length_cons, hidx, ih]

/-- An id absent from `l` is absent from its arranged copy. -/
lemma find?_arrangeList_none (piV rad : ℚ) (c : Nat) (n : String) :
    ∀ (i : Nat) (l : List Participant),
      l.find? (fun p => p.entity.id == n) = none →
      (arrangeList piV rad c i l).find? (fun p => p.entity.id == n) = none := by
  intro i l
  induction l generalizing i with
  | nil => intro _; rfl
  | cons a rest ih =>
    intro h
    rw [List.find?_cons] at h
    rcases ha : (a.entity.id == n) with _ | _
    · rw [ha] at h
      simp only [arrangeList, List.find?_cons]
      have ha2 :
          (({ a with position :=
              { angle := piV * 2 / (c : ℚ) * (i : ℚ) - piV / 2,
                radius := rad, index := i } } : Participant).entity.id == n) = false := ha
      rw [ha2]
      exact ih _ h
    · rw [ha] at h
      simp at h

/-- C9 amended: adding a participant with a fresh id creates it with
`visual = idle`, `turnType = null`, `lastActiveRound = 0`, `isSpeaking =
false`, appends it preserving call order, and emits exactly two notifications
to each subscriber, in this order: first one batch `position_changed`
notification covering all participants, then one `added` notification
carrying the new participant. -/
theorem addParticipant_fresh_amended (piV : ℚ) (now : Nat) (m : ParticipantManager)
    (cfg : AddConfig)
    (h : m.participants.find? (fun p => p.entity.id == cfg.name) = none) :
    (addParticipant piV now m cfg).1.state =
      { visual := .idle, turnType := none, lastActiveRound := 0, isSpeaking := false }
    ∧ (addParticipant piV now m cfg).2.1.participants.map (fun p => p.entity.id)
      = m.participants.map (fun p => p.entity.id) ++ [cfg.name]
    ∧ (addParticipant piV now m cfg).2.2 =
      [{ type := .position_changed
         participant := none
         participants := some (addParticipant piV now m cfg).2.1.participants },
       { type := .added
         participant := some (addParticipant piV now m cfg).1
         participants := none }] := by
  have hlen : (m.participants ++ [createParticipant m.factoryCount now cfg]).length
      = m.participants.length + 1 := by simp
  have hfind :
      (arrangeList piV m.tableRadius (m.participants.length + 1) 0
          (m.participants ++ [createParticipant m.factoryCount now cfg])).find?
        (fun p => p.entity.id == cfg.name)
      = some { createParticipant m.factoryCount now cfg with
          position :=
            { angle := piV * 2 / ((m.participants.length + 1 : Nat) : ℚ)
                  * ((0 + m.participants.length : Nat) : ℚ) - piV / 2
              radius := m.tableRadius
              index := 0 + m.participants.length } } := by
    rw [arrangeList_append, List.find?_append,
        find?_arrangeList_none piV m.tableRadius (m.participants.length + 1) cfg.name 0
          m.participants h]
    simp [arrangeList, List.find?_cons, createParticipant]
  simp only [addParticipant, h, arrangeParticipants, hlen,
    Nat.succ_ne_zero, if_false, hfind, Option.getD_some]
  refine ⟨rfl, ?_, rfl⟩
  have hm := arrangeList_map_entity piV m.tableRadius (m.participants.length + 1) 0
    (m.participants ++ [createParticipant m.factoryCount now cfg])
  have hmid :
      (arrangeList piV m.tableRadius (m.participants.length + 1) 0
          (m.participants ++ [createParticipant m.factoryCount now cfg])).map
        (fun p => p.entity.id)
      = ((m.participants ++ [createParticipant m.factoryCount now cfg]).map
          (fun p => p.entity)).map (fun e => e.id) := by
    rw [← hm, List.map_map]
    rfl
  rw [hmid]
  simp [createParticipant]

end Boardroom

namespace Boardroom

/-- C9 witness: the amended statement at the concrete input of adding "A" to
an empty manager. -/
theorem addParticipant_fresh_amended_witness :
    (addParticipant piQ 0 emptyManager
        { name := "A", role := "Agent", color := none }).1.state =
      { visual := .idle, turnType := none, lastActiveRound := 0, isSpeaking := false }
    ∧ (addParticipant piQ 0 emptyManager
        { name := "A", role := "Agent", color := none }).2.1.participants.map
          (fun p => p.entity.id)
      = emptyManager.participants.map (fun p => p.entity.id) ++ ["A"]
    ∧ (addParticipant piQ 0 emptyManager
        { name := "A", role := "Agent", color := none }).2.2 =
      [{ type := .position_changed
         participant := none
         participants := some (addParticipant piQ 0 emptyManager
            { name := "A", role := "Agent", color := none }).2.1.participants },
       { type := .added
         participant := some (addParticipant piQ 0 emptyManager
            { name := "A", role := "Agent", color := none }).1
         participants := none }] :=
  addParticipant_fresh_amended piQ 0 emptyManager
    { name := "A", role := "Agent", color := none } (by rfl)

end Boardroom

namespace Boardroom

/-! ### Lemmas about the metrics FIFO window -/

/-- A last-ten suffix has at most ten elements. -/
lemma lastTen_len (l : List ℚ) : (lastTen l).length ≤ 10 := by
  simp only [lastTen, List.length_drop]
  omega

/-- Short lists are their own last-ten suffix. -/
lemma lastTen_of_len_le (l : List ℚ) (h : l.length ≤ 10) : lastTen l = l := by
  simp [lastTen, Nat.sub_eq_zero_of_le h]

/-- Taking the last ten, appending, and taking the last ten again is the same
as taking the last ten of the whole concatenation. -/
lemma lastTen_append_lastTen (l r : List ℚ) :
    lastTen (lastTen l ++ r) = lastTen (l ++ r) := by
  rcases le_or_lt l.length 10 with hle | hgt
  · rw [lastTen_of_len_le l hle]
  · simp only [lastTen, List.length_append, List.length_drop]
    rw [List.drop_append_eq_append_drop, List.drop_append_eq_append_drop, List.drop_drop]
    congr 1
    · congr 1
      omega
    · congr 1
      simp only [List.length_drop]
      omega

/-- One `setNovelty` call keeps exactly the last ten clamped samples. -/
lemma setNovelty_hist (h : HUDController) (v : ℚ)
    (hlen : h.noveltyHistory.length ≤ 10) :
    (setNovelty h v).noveltyHistory = lastTen (h.noveltyHistory ++ [clampQ v]) := by
  simp only [setNovelty, lastTen, List.length_append, List.length_cons, List.length_nil]
  by_cases h10 : h.noveltyHistory.length + 1 > 10
  · rw [if_pos (by simpa using h10)]
    have hi : h.noveltyHistory.length + 1 - 10 = 1 := by omega
    simp [hi]
  · rw [if_neg (by simpa using h10)]
    have hi : h.noveltyHistory.length + 1 - 10 = 0 := by omega
    simp [hi]

/-- The history never exceeds ten samples. -/
lemma setNovelty_hist_len (h : HUDController) (v : ℚ)
    (hlen : h.noveltyHistory.length ≤ 10) :
    (setNovelty h v).noveltyHistory.length ≤ 10 := by
  rw [setNovelty_hist h v hlen]
  exact lastTen_len _

/-- The stored consensus is definitionally the clamped inverse mean of the
stored history. -/
lemma setNovelty_consensus (h : HUDController) (v : ℚ) :
    (setNovelty h v).consensusLevel
      = clampQ (100 - (setNovelty h v).noveltyHistory.sum
          / ((setNovelty h v).noveltyHistory.length : ℚ)) := rfl

/-- After any sequence of `setNovelty` calls, the history is the last-ten
suffix of the clamped samples appended to the starting history. -/
lemma recordAll_hist (vs : List ℚ) :
    ∀ h : HUDController, h.noveltyHistory.length ≤ 10 →
      (recordAll h vs).noveltyHistory = lastTen (h.noveltyHistory ++ vs.map clampQ) := by
  induction vs with
  | nil =>
    intro h hlen
    simpa [recordAll] using (lastTen_of_len_le _ hlen).symm
  | cons v rest ih =>
    intro h hlen
    have hcons : recordAll h (v :: rest) = recordAll (setNovelty h v) rest := rfl
    rw [hcons, ih _ (setNovelty_hist_len h v hlen), setNovelty_hist h v hlen,
        lastTen_append_lastTen]
    simp

/-- C5: for every sequence of recorded novelty values, each value is clamped
to [0,100] and appended to a FIFO history that keeps exactly the last (at
most ten) clamped samples, and the stored consensus always equals
`clamp(100 − mean(history), 0, 100)`; in particular, recording the fifteen
values 0, 5, ..., 70 one at a time leaves exactly the ten-element history
`[25, 30, 35, 40, 45, 50, 55, 60, 65, 70]`. -/
theorem recordNovelty_window_and_consensus (vs : List ℚ) (v : ℚ) :
    (recordAll initialHUD (vs ++ [v])).noveltyHistory
      = ((vs ++ [v]).map clampQ).drop ((vs ++ [v]).length - 10)
    ∧ (recordAll initialHUD (vs ++ [v])).noveltyHistory.length ≤ 10
    ∧ (recordAll initialHUD (vs ++ [v])).consensusLevel
      = clampQ (100 - (recordAll initialHUD (vs ++ [v])).noveltyHistory.sum
          / ((recordAll initialHUD (vs ++ [v])).noveltyHistory.length : ℚ))
    ∧ (recordAll initialHUD literalSamples).noveltyHistory
      = [25, 30, 35, 40, 45, 50, 55, 60, 65, 70] := by
  have hhist := recordAll_hist (vs ++ [v]) initialHUD (by simp [initialHUD])
  have hinit : initialHUD.noveltyHistory = [] := rfl
  rw [hinit, List.nil_append] at hhist
  refine ⟨?_, ?_, ?_, ?_⟩
  · rw [hhist]
    simp [lastTen]
  · rw [hhist]
    exact lastTen_len _
  · have hsplit : recordAll initialHUD (vs ++ [v])
        = setNovelty (recordAll initialHUD vs) v := by
      simp [recordAll, List.foldl_append]
    rw [hsplit]
    exact setNovelty_consensus _ _
  · norm_num [recordAll, literalSamples, initialHUD, setNovelty, clampQ, min_def, max_def]

end Boardroom

namespace Boardroom

/-! ### Lemmas about seat arrangement -/

/-- `arrangeList` preserves length. -/
lemma arrangeList_length (piV rad : ℚ) (c : Nat) :
    ∀ (i : Nat) (l : List Participant), (arrangeList piV rad c i l).length = l.length := by
  intro i l
  induction l generalizing i with
  | nil => rfl
  | cons a rest ih => simp [arrangeList, ih]

/-- The seat indices written by `arrangeList` run contiguously from the
starting index. -/
lemma arrangeList_map_index (piV rad : ℚ) (c : Nat) :
    ∀ (i : Nat) (l : List Participant),
      (arrangeList piV rad c i l).map (fun p => p.position.index)
        = List.range' i l.length := by
  intro i l
  induction l generalizing i with
  | nil => rfl
  | cons a rest ih =>
    simp [arrangeList, ih, List.range'_succ]

/-- The angles written by `arrangeList` follow the loop formula
`angleStep * index − π/2`. -/
lemma arrangeList_map_angle (piV rad : ℚ) (c : Nat) :
    ∀ (i : Nat) (l : List Participant),
      (arrangeList piV rad c i l).map (fun p => p.position.angle)
        = (List.range' i l.length).map
            (fun j => piV * 2 / (c : ℚ) * (j : ℚ) - piV / 2) := by
  intro i l
  induction l generalizing i with
  | nil => rfl
  | cons a rest ih =>
    simp [arrangeList, ih, List.range'_succ]

/-- A rearranged nonempty registry satisfies the seat invariant. -/
lemma arrangeParticipants_arranged (piV : ℚ) (m : ParticipantManager)
    (h : m.participants ≠ []) :
    SeatsArranged piV (arrangeParticipants piV m).1 := by
  have hlen : m.participants.length ≠ 0 := by
    simpa [List.length_eq_zero] using h
  simp only [arrangeParticipants, if_neg hlen]
  constructor
  · rw [arrangeList_length, arrangeList_map_index, List.range_eq_range']
  · rw [arrangeList_length, arrangeList_map_angle, List.range_eq_range']
    refine List.map_congr_left ?_
    intro j _
    ring

/-- The empty registry satisfies the seat invariant vacuously. -/
lemma seatsArranged_nil (piV : ℚ) (m : ParticipantManager)
    (h : m.participants = []) : SeatsArranged piV m := by
  constructor <;> simp [h]

/-- Every single add or remove reestablishes the seat invariant. -/
lemma applyRegistryOp_arranged (piV : ℚ) (m : ParticipantManager) (op : RegistryOp)
    (hm : SeatsArranged piV m) : SeatsArranged piV (applyRegistryOp piV m op) := by
  cases op with
  | add cfg now =>
    rcases hfind : m.participants.find? (fun p => p.entity.id == cfg.name) with _ | q
    · have harr := arrangeParticipants_arranged piV
        { m with
          participants := m.participants ++ [createParticipant m.factoryCount now cfg]
          stateMachines := m.stateMachines ++ [(cfg.name, VisualState.idle)]
          factoryCount := m.factoryCount + 1 } (by simp)
      simpa [applyRegistryOp, addParticipant, hfind] using harr
    · simpa [applyRegistryOp, addParticipant, hfind] using hm
  | remove name =>
    rcases hfind : m.participants.find? (fun p => p.entity.id == name) with _ | q
    · simpa [applyRegistryOp, removeParticipant, hfind] using hm
    · by_cases herase : m.participants.eraseP (fun p => p.entity.id == name) = []
      · have : SeatsArranged piV
            { m with
              participants := m.participants.eraseP (fun p => p.entity.id == name)
              stateMachines := m.stateMachines.eraseP (fun kv => kv.1 == name) } :=
          seatsArranged_nil piV _ herase
        simpa [applyRegistryOp, removeParticipant, hfind, arrangeParticipants, herase]
          using this
      · have harr := arrangeParticipants_arranged piV
          { m with
            participants := m.participants.eraseP (fun p => p.entity.id == name)
            stateMachines := m.stateMachines.eraseP (fun kv => kv.1 == name) } herase
        simpa [applyRegistryOp, removeParticipant, hfind] using harr

/-- The seat invariant holds after any op sequence from any state satisfying
it. -/
lemma applyRegistryOps_arranged (piV : ℚ) :
    ∀ (ops : List RegistryOp) (m : ParticipantManager), SeatsArranged piV m →
      SeatsArranged piV (applyRegistryOps piV m ops) := by
  intro ops
  induction ops with
  | nil => intro m hm; simpa [applyRegistryOps] using hm
  | cons op rest ih =>
    intro m hm
    have hstep := applyRegistryOp_arranged piV m op hm
    simpa [applyRegistryOps] using ih _ hstep

/-- C6: after any sequence of adds and removes starting from a fresh manager,
seat positions are a pure function of insertion order and count: the
participant at insertion position `i` of `N` has `seatIndex = i` — so the
seat indices are exactly `0, ..., N-1`, contiguous after every removal — and
`angle = 2·piV·i/N − piV/2` (with `piV` standing for `Math.PI`). -/
theorem seat_assignment_pure_function (piV : ℚ) (ops : List RegistryOp) :
    (applyRegistryOps piV emptyManager ops).participants.map (fun p => p.position.index)
      = List.range (applyRegistryOps piV emptyManager ops).participants.length
    ∧ (applyRegistryOps piV emptyManager ops).participants.map (fun p => p.position.angle)
      = (List.range (applyRegistryOps piV emptyManager ops).participants.length).map
          (fun i => 2 * piV * (i : ℚ)
            / ((applyRegistryOps piV emptyManager ops).participants.length : ℚ)
            - piV / 2) :=
  applyRegistryOps_arranged piV ops emptyManager (seatsArranged_nil piV emptyManager rfl)

end Boardroom
